import Mathlib

/-!
Shallow embedding of `compiler-core/src/io.rs`: the pluggable I/O abstraction
layer (wrapped writer/reader handles with eager error conversion on the write
side, the in-memory test double `InMemoryFile`/`FilesChannel`, and the
`TarUnpacker` capability), together with theorems settling the frozen claims.

Modelling conventions:
* Bytes are `Nat`s (< 256 in practice; the code never computes on them).
* A Rust `&str`/`String` is represented by its UTF-8 byte sequence (`RStr`).
  This is exact for the operations used here: `str.as_bytes()` is the identity
  on that representation, and `String::from_utf8(v)` is a zero-copy validity
  check returning the very same bytes on success.
* A `Box<dyn std::io::Write>` trait object is a state machine `WriteBackend σ`:
  `write` consumes a buffer and returns the number of bytes accepted (Rust's
  `io::Write::write` may legally accept only a prefix) or an `IoError`.
* `Rc<RefCell<Vec<u8>>>` cells live in an explicit `Heap` mapping buffer ids to
  (contents, strong count); `clone`/`drop`/`Rc::try_unwrap` act on the count.
* `std::io::Error` is abstracted to the one part this layer inspects, its
  `to_string()` description; `std::fmt::Error` has a fixed `Display` output.
-/

namespace GleamCore

abbrev Byte := Nat
abbrev Bytes := List Nat
abbrev Path := String

/-- A Rust `&str`, represented by its UTF-8 byte sequence. -/
abbrev RStr := Bytes

/-- Rust `std::io::Error`, abstracted to its `to_string()` description. -/
structure IoError where
  description : String
deriving DecidableEq, Repr

/-- The fixed `Display` output of `std::fmt::Error`. -/
def fmtErrorDescription : String := "an error occurred when formatting an argument"

/-- Modelled from the spec: `crate::error::FileIoAction` is external to the
given source; the spec's Error Model has an `action` field (read/write). Only
the constructors this module uses are needed. -/
inductive FileIoAction
  | ReadFrom
  | WriteTo
deriving DecidableEq, Repr

/-- Modelled from the spec: `crate::error::FileKind` (file/directory). -/
inductive FileKind
  | File
  | Directory
deriving DecidableEq, Repr

/-- Modelled from the spec: the Error Model's structured error type; `FileIo`
is the only variant `io.rs` constructs, with fields `action`, `kind`, `path`,
`err` (optional cause message). -/
inductive Error
  | FileIo (action : FileIoAction) (kind : FileKind) (path : Path) (err : Option String)
deriving DecidableEq, Repr

/-- The `path` field of an Error Model value. -/
def Error.path : Error → Path
  | .FileIo _ _ p _ => p

/-- A `Box<dyn std::io::Write>` trait object, as a state machine over `σ`.
`write st buf` returns either the count of bytes accepted (which Rust's
`io::Write` contract allows to be any number up to `buf.length`) or an
`IoError`, together with the successor state. -/
structure WriteBackend (σ : Type) where
  write : σ → Bytes → Except IoError Nat × σ

/-- `WrappedWriter` (io.rs 99-104): a path retained for error attribution plus
the boxed inner writable object. The inner object's state `σ` is threaded
explicitly through each operation. -/
structure WrappedWriter (σ : Type) where
  path : Path
  inner : WriteBackend σ

/-- `impl Utf8Writer for WrappedWriter::convert_err` (io.rs 108-117): any
failure description becomes a WriteTo/File error carrying this handle's path. -/
def WrappedWriter.convert_err (w : WrappedWriter σ) (d : String) : Error :=
  .FileIo .WriteTo .File w.path (some d)

/-- `impl std::io::Write for WrappedWriter::write` (io.rs 133-136): the raw
byte facet, pure delegation to the inner writer. -/
def WrappedWriter.io_write (w : WrappedWriter σ) (st : σ) (buf : Bytes) :
    Except IoError Nat × σ :=
  w.inner.write st buf

/-- `WrappedWriter::write` (io.rs 127-130): converted-error byte facet.
`wrap_result` (io.rs 21-23) discards the accepted-byte count and feeds any
error through `convert_err`. -/
def WrappedWriter.write (w : WrappedWriter σ) (st : σ) (bytes : Bytes) :
    Except Error Unit × σ :=
  match w.inner.write st bytes with
  | (.ok _, st') => (.ok (), st')
  | (.error e, st') => (.error (w.convert_err e.description), st')

/-- `impl std::fmt::Write for WrappedWriter::write_str` (io.rs 143-150): the
raw text facet; submits the string's UTF-8 bytes to the inner writer and maps
any `io::Error` to the information-free `fmt::Error`. -/
def WrappedWriter.write_str (w : WrappedWriter σ) (st : σ) (s : RStr) :
    Except Unit Unit × σ :=
  match w.inner.write st s with
  | (.ok _, st') => (.ok (), st')
  | (.error _, st') => (.error (), st')

/-- `Utf8Writer::str_write` (io.rs 16-19) at `WrappedWriter`: calls
`write_str`, then wraps the `fmt::Error` (whose description is the fixed
`fmtErrorDescription`) through `convert_err`. -/
def WrappedWriter.str_write (w : WrappedWriter σ) (st : σ) (s : RStr) :
    Except Error Unit × σ :=
  match w.write_str st s with
  | (.ok _, st') => (.ok (), st')
  | (.error _, st') => (.error (w.convert_err fmtErrorDescription), st')

/-- `impl Utf8Writer for String::convert_err` (io.rs 28-37): plain in-memory
string buffers attribute failures to the sentinel path `<in memory>`. -/
def rstring_convert_err (d : String) : Error :=
  .FileIo .WriteTo .File "<in memory>" (some d)

/-- Rust `String`'s `fmt::Write::write_str`: appends and cannot fail. -/
def rstring_write_str (buf : Bytes) (s : RStr) : Except Unit Unit × Bytes :=
  (.ok (), buf ++ s)

/-- `Utf8Writer::str_write` (io.rs 16-19) at `String`. -/
def rstring_str_write (buf : Bytes) (s : RStr) : Except Error Unit × Bytes :=
  match rstring_write_str buf s with
  | (.ok _, b') => (.ok (), b')
  | (.error _, b') => (.error (rstring_convert_err fmtErrorDescription), b')

/-- One `Rc<RefCell<Vec<u8>>>` cell: buffer contents plus strong count. -/
structure BufCell where
  contents : Bytes
  strong : Nat
deriving DecidableEq, Repr

/-- The store of shared buffers; `next` is the next fresh id. -/
structure Heap where
  data : Nat → BufCell
  next : Nat

/-- Pointwise heap update. -/
def Heap.upd (h : Heap) (i : Nat) (c : BufCell) : Heap :=
  ⟨fun j => if j = i then c else h.data j, h.next⟩

/-- `InMemoryFile` (io.rs 218-221): a handle to a shared buffer cell. -/
structure InMemoryFile where
  bufId : Nat
deriving DecidableEq, Repr

/-- `InMemoryFile::new` (io.rs 224-226): a fresh empty buffer, strong count 1. -/
def InMemoryFile.new (h : Heap) : InMemoryFile × Heap :=
  (⟨h.next⟩, ⟨fun j => if j = h.next then ⟨[], 1⟩ else h.data j, h.next + 1⟩)

/-- `Clone for InMemoryFile`: another owner of the same cell. -/
def InMemoryFile.clone (f : InMemoryFile) (h : Heap) : Heap :=
  let c := h.data f.bufId
  h.upd f.bufId ⟨c.contents, c.strong + 1⟩

/-- Dropping one `InMemoryFile` handle: the strong count decreases. -/
def InMemoryFile.drop (f : InMemoryFile) (h : Heap) : Heap :=
  let c := h.data f.bufId
  h.upd f.bufId ⟨c.contents, c.strong - 1⟩

/-- `InMemoryFile::into_contents` (io.rs 228-233): `Rc::try_unwrap` succeeds
exactly when this handle is the sole owner, yielding the buffer; otherwise the
`Err(rc)` is discarded by `map_err(|_| ())`, dropping this handle. -/
def InMemoryFile.into_contents (f : InMemoryFile) (h : Heap) :
    Except Unit Bytes × Heap :=
  let c := h.data f.bufId
  if c.strong = 1 then (.ok c.contents, h.upd f.bufId ⟨c.contents, 0⟩)
  else (.error (), f.drop h)

/-- `impl Write for InMemoryFile::write` (io.rs 235-238): delegates to
`Vec<u8>`'s `io::Write`, which appends the whole buffer and returns
`Ok(buf.len())`; it cannot fail. -/
def InMemoryFile.write (f : InMemoryFile) (h : Heap) (buf : Bytes) :
    Except IoError Nat × Heap :=
  let c := h.data f.bufId
  (.ok buf.length, h.upd f.bufId ⟨c.contents ++ buf, c.strong⟩)

/-- The `Box<dyn std::io::Write>` view of an `InMemoryFile` handle. -/
def InMemoryFile.backend (f : InMemoryFile) : WriteBackend Heap :=
  ⟨fun h buf => f.write h buf⟩

/-- `impl std::fmt::Write for InMemoryFile::write_str` (io.rs 245-253). -/
def InMemoryFile.write_str (f : InMemoryFile) (h : Heap) (s : RStr) :
    Except Unit Unit × Heap :=
  match f.write h s with
  | (.ok _, h') => (.ok (), h')
  | (.error _, h') => (.error (), h')

/-- `impl Utf8Writer for InMemoryFile::convert_err` (io.rs 255-264): failures
are attributed to the sentinel path `<in memory test file>`. -/
def InMemoryFile.convert_err (d : String) : Error :=
  .FileIo .WriteTo .File "<in memory test file>" (some d)

/-- `Utf8Writer::str_write` (io.rs 16-19) at `InMemoryFile`. -/
def InMemoryFile.str_write (f : InMemoryFile) (h : Heap) (s : RStr) :
    Except Error Unit × Heap :=
  match f.write_str h s with
  | (.ok _, h') => (.ok (), h')
  | (.error _, h') => (.error (InMemoryFile.convert_err fmtErrorDescription), h')

/-- `Writer::write` (io.rs 41-44) at `InMemoryFile`: converted-error bytes. -/
def InMemoryFile.writer_write (f : InMemoryFile) (h : Heap) (bytes : Bytes) :
    Except Error Unit × Heap :=
  match f.write h bytes with
  | (.ok _, h') => (.ok (), h')
  | (.error e, h') => (.error (InMemoryFile.convert_err e.description), h')

/-- UTF-8 validity of a byte sequence, per the Unicode well-formed byte
sequence table (what Rust's `String::from_utf8` checks): ASCII; 2-byte
`C2..DF`; 3-byte `E0 A0..BF`, `E1..EC | EE..EF 80..BF`, `ED 80..9F` (no
surrogates); 4-byte `F0 90..BF`, `F1..F3 80..BF`, `F4 80..8F` (≤ U+10FFFF);
each followed by the required `80..BF` continuation bytes. -/
def isCont (b : Byte) : Bool := 0x80 ≤ b && b ≤ 0xBF

def validUtf8 : Bytes → Bool
  | [] => true
  | b :: rest =>
    if b ≤ 0x7F then validUtf8 rest
    else if 0xC2 ≤ b && b ≤ 0xDF then
      match rest with
      | c1 :: r => isCont c1 && validUtf8 r
      | [] => false
    else if b = 0xE0 then
      match rest with
      | c1 :: c2 :: r => (0xA0 ≤ c1 && c1 ≤ 0xBF) && isCont c2 && validUtf8 r
      | _ => false
    else if (0xE1 ≤ b && b ≤ 0xEC) || b = 0xEE || b = 0xEF then
      match rest with
      | c1 :: c2 :: r => isCont c1 && isCont c2 && validUtf8 r
      | _ => false
    else if b = 0xED then
      match rest with
      | c1 :: c2 :: r => (0x80 ≤ c1 && c1 ≤ 0x9F) && isCont c2 && validUtf8 r
      | _ => false
    else if b = 0xF0 then
      match rest with
      | c1 :: c2 :: c3 :: r =>
        (0x90 ≤ c1 && c1 ≤ 0xBF) && isCont c2 && isCont c3 && validUtf8 r
      | _ => false
    else if 0xF1 ≤ b && b ≤ 0xF3 then
      match rest with
      | c1 :: c2 :: c3 :: r => isCont c1 && isCont c2 && isCont c3 && validUtf8 r
      | _ => false
    else if b = 0xF4 then
      match rest with
      | c1 :: c2 :: c3 :: r =>
        (0x80 ≤ c1 && c1 ≤ 0x8F) && isCont c2 && isCont c3 && validUtf8 r
      | _ => false
    else false

/-- Rust `String::from_utf8`: a zero-copy validity check; on success the
resulting `String` is exactly the input bytes. -/
def from_utf8 (bs : Bytes) : Except Unit Bytes :=
  if validUtf8 bs then .ok bs else .error ()

/-- `OutputFile` (io.rs 47-51); `text` is a Rust `String`, represented by its
UTF-8 bytes. -/
structure OutputFile where
  text : Bytes
  path : Path
deriving DecidableEq, Repr

/-- The mpsc channel of `(PathBuf, InMemoryFile)` messages: the queued
messages in send order, and whether the receiving half is still alive. -/
structure Channel where
  queue : List (Path × InMemoryFile)
  receiverAlive : Bool

/-- The observable state of a `FilesChannel` test-double session: the shared
buffer heap plus the channel. -/
structure TestWorld where
  heap : Heap
  chan : Channel

/-- `impl FileSystemWriter for FilesChannel::writer` (io.rs 186-192): makes a
fresh `InMemoryFile`, sends `(path, file.clone())` on the channel with
`let _ = ...` (when the receiver is gone the `SendError` carries the pair back
and dropping it drops the clone), and returns `Ok` of a `WrappedWriter` over
the boxed file. The `InMemoryFile` component of the returned pair is the
handle boxed inside the writer, surfaced so that Rust's implicit drop of the
writer can be modelled explicitly. -/
def FilesChannel.writer (p : Path) (w : TestWorld) :
    Except Error (WrappedWriter Heap × InMemoryFile) × TestWorld :=
  let (file, h1) := InMemoryFile.new w.heap
  let h2 := file.clone h1
  if w.chan.receiverAlive then
    (.ok (⟨p, file.backend⟩, file), ⟨h2, ⟨w.chan.queue ++ [(p, file)], true⟩⟩)
  else
    (.ok (⟨p, file.backend⟩, file), ⟨file.drop h2, w.chan⟩)

/-- `FilesChannel::recv_utf8_files` (io.rs 171-183): drains the messages
already queued (`try_iter` is non-blocking), reclaiming each buffer with
`into_contents` and decoding it as UTF-8; `collect::<Result<_, _>>` stops at
the first failure, failing the whole collection. -/
def FilesChannel.recv_utf8_files (h : Heap) :
    List (Path × InMemoryFile) → Except Unit (List OutputFile) × Heap
  | [] => (.ok [], h)
  | (p, f) :: rest =>
    match f.into_contents h with
    | (.error _, h') => (.error (), h')
    | (.ok bs, h') =>
      match from_utf8 bs with
      | .error _ => (.error (), h')
      | .ok text =>
        match FilesChannel.recv_utf8_files h' rest with
        | (.ok outs, h'') => (.ok (⟨text, p⟩ :: outs), h'')
        | (.error _, h'') => (.error (), h'')

/-- The outcome of calling a Rust function that may panic. -/
inductive RustOutcome (α : Type)
  | ok (a : α)
  | err (e : Error)
  | panics

/-- A `Box<dyn std::io::Read>` trait object as a state machine: `read st cap`
returns the chunk of bytes read into a buffer of capacity `cap` (empty chunk
signals end of stream) or a raw `IoError`. -/
structure ReadBackend (σ : Type) where
  read : σ → Nat → Except IoError Bytes × σ

/-- `WrappedReader` (io.rs 73-78): a path retained for error attribution plus
the boxed inner readable object. -/
structure WrappedReader (σ : Type) where
  path : Path
  inner : ReadBackend σ

/-- `WrappedReader::read` (io.rs 88-90): pure delegation to the inner stream;
errors stay raw `IoError`s, untranslated into the Error Model. -/
def WrappedReader.read (r : WrappedReader σ) (st : σ) (cap : Nat) :
    Except IoError Bytes × σ :=
  r.inner.read st cap

/-- `impl std::io::Read for WrappedReader` (io.rs 93-97): calls
`WrappedReader::read`. -/
def WrappedReader.io_read (r : WrappedReader σ) (st : σ) (cap : Nat) :
    Except IoError Bytes × σ :=
  r.read st cap

/-- `impl FileSystemReader for FilesChannel::gleam_files` (io.rs 195-197):
`unimplemented!()`. -/
def FilesChannel.gleam_files (_c : Channel) (_dir : Path) : RustOutcome (List Path) :=
  .panics

/-- `impl FileSystemReader for FilesChannel::read` (io.rs 199-201):
`unimplemented!()`. -/
def FilesChannel.read (_c : Channel) (_p : Path) : RustOutcome RStr :=
  .panics

/-- `impl FileSystemReader for FilesChannel::is_file` (io.rs 203-205):
`unimplemented!()`. -/
def FilesChannel.is_file (_c : Channel) (_p : Path) : RustOutcome Bool :=
  .panics

/-- `impl FileSystemReader for FilesChannel::reader` (io.rs 207-209):
`unimplemented!()`. -/
def FilesChannel.reader (_c : Channel) (_p : Path) : RustOutcome (WrappedReader σ) :=
  .panics

/-- `impl FileSystemReader for FilesChannel::is_directory` (io.rs 211-213):
`unimplemented!()`. -/
def FilesChannel.is_directory (_c : Channel) (_p : Path) : RustOutcome Bool :=
  .panics

/-- The `TarUnpacker` capability (io.rs 275-292): implementors supply the raw
primitive `io_result_unpack`; the archive type is opaque (`α`). -/
structure TarUnpacker (α : Type) where
  io_result_unpack : Path → α → Except IoError Unit

/-- `TarUnpacker::unpack` (io.rs 282-291): the provided wrapper emits a trace
event (no modelled effect), invokes the primitive, and converts any native
failure into a WriteTo/Directory error at the target path with the native
error's description as cause. -/
def TarUnpacker.unpack (t : TarUnpacker α) (p : Path) (archive : α) :
    Except Error Unit :=
  match t.io_result_unpack p archive with
  | .ok _ => .ok ()
  | .error e => .error (.FileIo .WriteTo .Directory p (some e.description))

/-- One call on a write-contract handle: a byte slice or a string, each
submitted through either the converted-error facet (`viaConv = true`:
`Writer::write` / `Utf8Writer::str_write`) or the raw facet (`viaConv =
false`: `io::Write::write` / `fmt::Write::write_str`). -/
inductive WCall
  | bytes (b : Bytes) (viaConv : Bool)
  | text (s : RStr) (viaConv : Bool)
deriving DecidableEq, Repr

/-- The byte sequence a call submits: the slice itself, or the string's UTF-8
bytes. -/
def WCall.submitted : WCall → Bytes
  | .bytes b _ => b
  | .text s _ => s

/-- Run a sequence of calls on a `WrappedWriter`, requiring every call to
return success; `none` if any call fails. -/
def runWrapped (w : WrappedWriter σ) : σ → List WCall → Option σ
  | st, [] => some st
  | st, .bytes b true :: cs =>
    match w.write st b with
    | (.ok _, st') => runWrapped w st' cs
    | (.error _, _) => none
  | st, .bytes b false :: cs =>
    match w.io_write st b with
    | (.ok _, st') => runWrapped w st' cs
    | (.error _, _) => none
  | st, .text s true :: cs =>
    match w.str_write st s with
    | (.ok _, st') => runWrapped w st' cs
    | (.error _, _) => none
  | st, .text s false :: cs =>
    match w.write_str st s with
    | (.ok _, st') => runWrapped w st' cs
    | (.error _, _) => none

/-- Run a sequence of calls directly on an `InMemoryFile` handle, requiring
every call to return success. -/
def runMem (f : InMemoryFile) : Heap → List WCall → Option Heap
  | h, [] => some h
  | h, .bytes b true :: cs =>
    match f.writer_write h b with
    | (.ok _, h') => runMem f h' cs
    | (.error _, _) => none
  | h, .bytes b false :: cs =>
    match f.write h b with
    | (.ok _, h') => runMem f h' cs
    | (.error _, _) => none
  | h, .text s true :: cs =>
    match f.str_write h s with
    | (.ok _, h') => runMem f h' cs
    | (.error _, _) => none
  | h, .text s false :: cs =>
    match f.write_str h s with
    | (.ok _, h') => runMem f h' cs
    | (.error _, _) => none

/-- Open a path on the test double, write one string through the returned
writer's `str_write`, then drop the writer (Rust drops the boxed
`InMemoryFile` when the `WrappedWriter` goes out of scope). -/
def emitFile (w : TestWorld) (pt : Path × RStr) : TestWorld :=
  match FilesChannel.writer pt.1 w with
  | (.ok (ww, f), w') =>
    let (_, h') := ww.str_write w'.heap pt.2
    ⟨f.drop h', w'.chan⟩
  | (.error _, w') => w'

/-- A fully-empty heap. -/
def emptyHeap : Heap := ⟨fun _ => ⟨[], 0⟩, 0⟩

/-- A fresh test-double session: `FilesChannel::new` with the receiver alive
and nothing queued. -/
def initWorld : TestWorld := ⟨emptyHeap, ⟨[], true⟩⟩

/-- An inner writer that accepts at most one byte per call and reports
success — behaviour Rust's `io::Write::write` contract permits. -/
def shortBackend : WriteBackend Bytes :=
  ⟨fun st b => (.ok (min 1 b.length), st ++ b.take 1)⟩

/-- An inner writer whose every write fails with description `boom`. -/
def failBackend : WriteBackend Unit :=
  ⟨fun st _ => (.error ⟨"boom"⟩, st)⟩

/-- An unpacker whose primitive always succeeds. -/
def okUnpacker : TarUnpacker Unit := ⟨fun _ _ => .ok ()⟩

/-- An unpacker whose primitive always fails with description `corrupt`. -/
def failUnpacker : TarUnpacker Unit := ⟨fun _ _ => .error ⟨"corrupt"⟩⟩

@[simp]
lemma Heap.upd_data_self (h : Heap) (i : Nat) (c : BufCell) : (h.upd i c).data i = c := by
  simp [Heap.upd]

lemma Heap.upd_data_ne (h : Heap) {i j : Nat} (c : BufCell) (hne : j ≠ i) :
    (h.upd i c).data j = h.data j := by
  simp [Heap.upd, hne]

@[simp]
lemma Heap.upd_next (h : Heap) (i : Nat) (c : BufCell) : (h.upd i c).next = h.next := rfl

lemma InMemoryFile.write_heap_contents (f : InMemoryFile) (h : Heap) (buf : Bytes) :
    ((f.write h buf).2.data f.bufId).contents = (h.data f.bufId).contents ++ buf := by
  simp [InMemoryFile.write]

lemma InMemoryFile.write_heap_strong (f : InMemoryFile) (h : Heap) (buf : Bytes) :
    ((f.write h buf).2.data f.bufId).strong = (h.data f.bufId).strong := by
  simp [InMemoryFile.write]

lemma InMemoryFile.write_heap_ne (f : InMemoryFile) (h : Heap) (buf : Bytes) {j : Nat}
    (hne : j ≠ f.bufId) : ((f.write h buf).2.data j) = h.data j := by
  simp [InMemoryFile.write, Heap.upd_data_ne _ _ hne]

lemma runWrapped_backend_cons (f : InMemoryFile) (p : Path) (h : Heap) (c : WCall)
    (cs : List WCall) :
    runWrapped ⟨p, f.backend⟩ h (c :: cs)
      = runWrapped ⟨p, f.backend⟩ (f.write h c.submitted).2 cs := by
  rcases c with ⟨b, v⟩ | ⟨s, v⟩ <;> cases v <;> rfl

lemma runMem_cons (f : InMemoryFile) (h : Heap) (c : WCall) (cs : List WCall) :
    runMem f h (c :: cs) = runMem f (f.write h c.submitted).2 cs := by
  rcases c with ⟨b, v⟩ | ⟨s, v⟩ <;> cases v <;> rfl

lemma runWrapped_backend_concat (f : InMemoryFile) (p : Path) (calls : List WCall)
    (h : Heap) :
    ∃ h', runWrapped ⟨p, f.backend⟩ h calls = some h' ∧
      (h'.data f.bufId).contents
        = (h.data f.bufId).contents ++ (calls.map WCall.submitted).flatten := by
  induction calls generalizing h with
  | nil => exact ⟨h, rfl, by simp⟩
  | cons c cs ih =>
    rw [runWrapped_backend_cons]
    obtain ⟨h', hrun, hc⟩ := ih (f.write h c.submitted).2
    refine ⟨h', hrun, ?_⟩
    rw [hc, InMemoryFile.write_heap_contents]
    simp [List.append_assoc]

lemma runMem_concat (f : InMemoryFile) (calls : List WCall) (h : Heap) :
    ∃ h', runMem f h calls = some h' ∧
      (h'.data f.bufId).contents
        = (h.data f.bufId).contents ++ (calls.map WCall.submitted).flatten := by
  induction calls generalizing h with
  | nil => exact ⟨h, rfl, by simp⟩
  | cons c cs ih =>
    rw [runMem_cons]
    obtain ⟨h', hrun, hc⟩ := ih (f.write h c.submitted).2
    refine ⟨h', hrun, ?_⟩
    rw [hc, InMemoryFile.write_heap_contents]
    simp [List.append_assoc]

lemma into_contents_eq_ok (f : InMemoryFile) (h : Heap)
    (hs : (h.data f.bufId).strong = 1) :
    f.into_contents h
      = (.ok (h.data f.bufId).contents,
         h.upd f.bufId ⟨(h.data f.bufId).contents, 0⟩) := by
  simp [InMemoryFile.into_contents, hs]

lemma into_contents_eq_err (f : InMemoryFile) (h : Heap)
    (hs : (h.data f.bufId).strong ≠ 1) :
    f.into_contents h = (.error (), f.drop h) := by
  simp [InMemoryFile.into_contents, hs]

lemma recv_cons_not_unique (h : Heap) (p : Path) (f : InMemoryFile)
    (rest : List (Path × InMemoryFile)) (hs : (h.data f.bufId).strong ≠ 1) :
    FilesChannel.recv_utf8_files h ((p, f) :: rest) = (.error (), f.drop h) := by
  simp only [FilesChannel.recv_utf8_files, into_contents_eq_err f h hs]

lemma recv_cons_invalid (h : Heap) (p : Path) (f : InMemoryFile)
    (rest : List (Path × InMemoryFile)) (hs : (h.data f.bufId).strong = 1)
    (hv : validUtf8 (h.data f.bufId).contents = false) :
    FilesChannel.recv_utf8_files h ((p, f) :: rest)
      = (.error (), h.upd f.bufId ⟨(h.data f.bufId).contents, 0⟩) := by
  simp only [FilesChannel.recv_utf8_files, into_contents_eq_ok f h hs, from_utf8, hv]
  rfl

lemma recv_cons_ok (h : Heap) (p : Path) (f : InMemoryFile)
    (rest : List (Path × InMemoryFile)) (hs : (h.data f.bufId).strong = 1)
    (hv : validUtf8 (h.data f.bufId).contents = true) :
    FilesChannel.recv_utf8_files h ((p, f) :: rest)
      = match FilesChannel.recv_utf8_files
          (h.upd f.bufId ⟨(h.data f.bufId).contents, 0⟩) rest with
        | (.ok outs, h2) => (.ok (⟨(h.data f.bufId).contents, p⟩ :: outs), h2)
        | (.error _, h2) => (.error (), h2) := by
  simp only [FilesChannel.recv_utf8_files, into_contents_eq_ok f h hs, from_utf8, hv]
  rfl

lemma recv_frame (msgs : List (Path × InMemoryFile)) (h : Heap) (j : Nat)
    (hj : ∀ q ∈ msgs, q.2.bufId ≠ j) :
    ((FilesChannel.recv_utf8_files h msgs).2).data j = h.data j := by
  induction msgs generalizing h with
  | nil => rfl
  | cons q rest ih =>
    obtain ⟨p, f⟩ := q
    have hfj : f.bufId ≠ j := hj (p, f) (by simp)
    have hrest : ∀ q ∈ rest, q.2.bufId ≠ j := fun q hq => hj q (by simp [hq])
    by_cases hs : (h.data f.bufId).strong = 1
    · by_cases hv : validUtf8 (h.data f.bufId).contents = true
      · rw [recv_cons_ok h p f rest hs hv]
        rcases hrec : FilesChannel.recv_utf8_files
            (h.upd f.bufId ⟨(h.data f.bufId).contents, 0⟩) rest with ⟨r2, h2⟩
        have hstep : h2.data j = h.data j := by
          have hx := ih (h.upd f.bufId ⟨(h.data f.bufId).contents, 0⟩) hrest
          rw [hrec] at hx
          simpa [Heap.upd_data_ne _ _ (Ne.symm hfj)] using hx
        cases r2 <;> exact hstep
      · rw [recv_cons_invalid h p f rest hs (by simpa using hv)]
        simpa using Heap.upd_data_ne h _ (Ne.symm hfj)
    · rw [recv_cons_not_unique h p f rest hs]
      simpa [InMemoryFile.drop] using Heap.upd_data_ne h _ (Ne.symm hfj)

lemma recv_congr (msgs : List (Path × InMemoryFile)) (h₁ h₂ : Heap)
    (hag : ∀ q ∈ msgs, h₁.data q.2.bufId = h₂.data q.2.bufId) :
    (FilesChannel.recv_utf8_files h₁ msgs).1
      = (FilesChannel.recv_utf8_files h₂ msgs).1 := by
  induction msgs generalizing h₁ h₂ with
  | nil => rfl
  | cons q rest ih =>
    obtain ⟨p, f⟩ := q
    have hf : h₁.data f.bufId = h₂.data f.bufId := hag (p, f) (by simp)
    by_cases hs : (h₁.data f.bufId).strong = 1
    · have hs₂ : (h₂.data f.bufId).strong = 1 := by rw [← hf]; exact hs
      by_cases hv : validUtf8 (h₁.data f.bufId).contents = true
      · have hv₂ : validUtf8 (h₂.data f.bufId).contents = true := by rw [← hf]; exact hv
        rw [recv_cons_ok h₁ p f rest hs hv, recv_cons_ok h₂ p f rest hs₂ hv₂]
        have hag' : ∀ q ∈ rest,
            (h₁.upd f.bufId ⟨(h₁.data f.bufId).contents, 0⟩).data q.2.bufId
              = (h₂.upd f.bufId ⟨(h₂.data f.bufId).contents, 0⟩).data q.2.bufId := by
          intro q hq
          by_cases hqf : q.2.bufId = f.bufId
          · rw [hqf]; simp [hf]
          · rw [Heap.upd_data_ne _ _ hqf, Heap.upd_data_ne _ _ hqf]
            exact hag q (by simp [hq])
        have hrq := ih _ _ hag'
        rcases h1r : FilesChannel.recv_utf8_files
            (h₁.upd f.bufId ⟨(h₁.data f.bufId).contents, 0⟩) rest with ⟨r1, ha⟩
        rcases h2r : FilesChannel.recv_utf8_files
            (h₂.upd f.bufId ⟨(h₂.data f.bufId).contents, 0⟩) rest with ⟨r2, hb⟩
        rw [h1r, h2r] at hrq
        rw [hf]
        cases r1 <;> cases r2 <;> simp_all
      · have hv₂ : validUtf8 (h₂.data f.bufId).contents = false := by
          rw [← hf]; simpa using hv
        rw [recv_cons_invalid h₁ p f rest hs (by simpa using hv),
          recv_cons_invalid h₂ p f rest hs₂ hv₂]
    · have hs₂ : (h₂.data f.bufId).strong ≠ 1 := by rw [← hf]; exact hs
      rw [recv_cons_not_unique h₁ p f rest hs, recv_cons_not_unique h₂ p f rest hs₂]

lemma recv_snoc_ok (ms : List (Path × InMemoryFile)) (p : Path) (f : InMemoryFile) :
    ∀ (h : Heap) (outs : List OutputFile) (h1 : Heap),
      FilesChannel.recv_utf8_files h ms = (.ok outs, h1) →
      (h1.data f.bufId).strong = 1 →
      validUtf8 (h1.data f.bufId).contents = true →
      (FilesChannel.recv_utf8_files h (ms ++ [(p, f)])).1
        = .ok (outs ++ [⟨(h1.data f.bufId).contents, p⟩]) := by
  induction ms with
  | nil =>
    intro h outs h1 hok hs hv
    have h1eq : h1 = h := by
      have := congrArg Prod.snd hok
      simpa [FilesChannel.recv_utf8_files] using this.symm
    have houts : outs = [] := by
      have := congrArg Prod.fst hok
      simpa [FilesChannel.recv_utf8_files] using this.symm
    rw [h1eq] at hs hv
    rw [houts, h1eq, List.nil_append, recv_cons_ok h p f [] hs hv]
    simp [FilesChannel.recv_utf8_files]
  | cons q rest ih =>
    intro h outs h1 hok hs hv
    obtain ⟨p', f'⟩ := q
    by_cases hs' : (h.data f'.bufId).strong = 1
    · by_cases hv' : validUtf8 (h.data f'.bufId).contents = true
      · rw [recv_cons_ok h p' f' rest hs' hv'] at hok
        rcases hrec : FilesChannel.recv_utf8_files
            (h.upd f'.bufId ⟨(h.data f'.bufId).contents, 0⟩) rest with ⟨r2, h2⟩
        rw [hrec] at hok
        cases r2 with
        | error u => exact absurd (congrArg Prod.fst hok) (by simp)
        | ok outs2 =>
          have houts : outs = ⟨(h.data f'.bufId).contents, p'⟩ :: outs2 := by
            have := congrArg Prod.fst hok
            simpa using this.symm
          have hh1 : h1 = h2 := by
            have := congrArg Prod.snd hok
            simpa using this.symm
          subst hh1
          have hrecsnoc := ih (h.upd f'.bufId ⟨(h.data f'.bufId).contents, 0⟩)
            outs2 h1 hrec hs hv
          rw [List.cons_append, recv_cons_ok h p' f' (rest ++ [(p, f)]) hs' hv']
          rcases hrec3 : FilesChannel.recv_utf8_files
              (h.upd f'.bufId ⟨(h.data f'.bufId).contents, 0⟩)
              (rest ++ [(p, f)]) with ⟨r3, h3⟩
          rw [hrec3] at hrecsnoc
          cases r3 with
          | error u => exact absurd hrecsnoc (by simp)
          | ok outs3 =>
            have h3eq : outs3 = outs2 ++ [⟨(h1.data f.bufId).contents, p⟩] := by
              simpa using hrecsnoc
            rw [houts]
            simp [h3eq]
      · rw [recv_cons_invalid h p' f' rest hs' (by simpa using hv')] at hok
        exact absurd (congrArg Prod.fst hok) (by simp)
    · rw [recv_cons_not_unique h p' f' rest hs'] at hok
      exact absurd (congrArg Prod.fst hok) (by simp)

lemma recv_ok_shape (msgs : List (Path × InMemoryFile)) :
    ∀ (h : Heap) (outs : List OutputFile),
      (FilesChannel.recv_utf8_files h msgs).1 = .ok outs →
      outs.map OutputFile.path = msgs.map Prod.fst ∧
      ∀ o ∈ outs, validUtf8 o.text = true := by
  induction msgs with
  | nil =>
    intro h outs hok
    have : outs = [] := by simpa [FilesChannel.recv_utf8_files] using hok.symm
    subst this
    simp
  | cons q rest ih =>
    intro h outs hok
    obtain ⟨p, f⟩ := q
    by_cases hs : (h.data f.bufId).strong = 1
    · by_cases hv : validUtf8 (h.data f.bufId).contents = true
      · rw [recv_cons_ok h p f rest hs hv] at hok
        rcases hrec : FilesChannel.recv_utf8_files
            (h.upd f.bufId ⟨(h.data f.bufId).contents, 0⟩) rest with ⟨r2, h2⟩
        rw [hrec] at hok
        cases r2 with
        | error u => exact absurd hok (by simp)
        | ok outs2 =>
          simp only at hok
          have houts : outs = ⟨(h.data f.bufId).contents, p⟩ :: outs2 := by
            simpa using hok.symm
          subst houts
          obtain ⟨hmap, hval⟩ := ih _ outs2 (by rw [hrec])
          refine ⟨by simpa using hmap, ?_⟩
          intro o ho
          rcases List.mem_cons.mp ho with ho | ho
          · rw [ho]; exact hv
          · exact hval o ho
      · rw [recv_cons_invalid h p f rest hs (by simpa using hv)] at hok
        exact absurd hok (by simp)
    · rw [recv_cons_not_unique h p f rest hs] at hok
      exact absurd hok (by simp)

lemma recv_err_of_bad (msgs : List (Path × InMemoryFile)) :
    ∀ (h : Heap),
      (∃ q ∈ msgs, (h.data q.2.bufId).strong ≠ 1 ∨
        validUtf8 (h.data q.2.bufId).contents = false) →
      (FilesChannel.recv_utf8_files h msgs).1 = .error () := by
  induction msgs with
  | nil =>
    intro h hbad
    obtain ⟨q, hq, _⟩ := hbad
    exact absurd hq (List.not_mem_nil q)
  | cons m rest ih =>
    intro h hbad
    obtain ⟨p', f'⟩ := m
    by_cases hs : (h.data f'.bufId).strong = 1
    · by_cases hv : validUtf8 (h.data f'.bufId).contents = true
      · obtain ⟨q, hq, hbadq⟩ := hbad
        have hqrest : q ∈ rest := by
          rcases List.mem_cons.mp hq with hq | hq
          · subst hq
            rcases hbadq with h1 | h1
            · exact absurd hs h1
            · exact absurd hv (by simp [h1])
          · exact hq
        rw [recv_cons_ok h p' f' rest hs hv]
        have hbad' : ∃ q ∈ rest,
            (((h.upd f'.bufId ⟨(h.data f'.bufId).contents, 0⟩).data q.2.bufId).strong ≠ 1
              ∨ validUtf8
                  ((h.upd f'.bufId ⟨(h.data f'.bufId).contents, 0⟩).data
                    q.2.bufId).contents = false) := by
          refine ⟨q, hqrest, ?_⟩
          by_cases hqf : q.2.bufId = f'.bufId
          · left
            rw [hqf, Heap.upd_data_self]
            simp
          · rw [Heap.upd_data_ne _ _ hqf]
            exact hbadq
        have hrest := ih _ hbad'
        rcases hrec : FilesChannel.recv_utf8_files
            (h.upd f'.bufId ⟨(h.data f'.bufId).contents, 0⟩) rest with ⟨r2, h2⟩
        rw [hrec] at hrest
        cases r2 with
        | error u => rfl
        | ok outs => exact absurd hrest (by simp)
      · rw [recv_cons_invalid h p' f' rest hs (by simpa using hv)]
    · rw [recv_cons_not_unique h p' f' rest hs]

lemma emitFile_spec (w : TestWorld) (p : Path) (t : RStr)
    (halive : w.chan.receiverAlive = true) :
    (emitFile w (p, t)).chan.receiverAlive = true ∧
    (emitFile w (p, t)).chan.queue = w.chan.queue ++ [(p, ⟨w.heap.next⟩)] ∧
    (emitFile w (p, t)).heap.next = w.heap.next + 1 ∧
    (emitFile w (p, t)).heap.data w.heap.next = ⟨t, 1⟩ ∧
    ∀ j, j ≠ w.heap.next → (emitFile w (p, t)).heap.data j = w.heap.data j := by
  refine ⟨?_, ?_, ?_, ?_, ?_⟩
  · simp [emitFile, FilesChannel.writer, halive, InMemoryFile.new, InMemoryFile.clone,
      InMemoryFile.drop, InMemoryFile.backend, InMemoryFile.write,
      WrappedWriter.str_write, WrappedWriter.write_str, Heap.upd]
  · simp [emitFile, FilesChannel.writer, halive, InMemoryFile.new, InMemoryFile.clone,
      InMemoryFile.drop, InMemoryFile.backend, InMemoryFile.write,
      WrappedWriter.str_write, WrappedWriter.write_str, Heap.upd]
  · simp [emitFile, FilesChannel.writer, halive, InMemoryFile.new, InMemoryFile.clone,
      InMemoryFile.drop, InMemoryFile.backend, InMemoryFile.write,
      WrappedWriter.str_write, WrappedWriter.write_str, Heap.upd]
  · simp [emitFile, FilesChannel.writer, halive, InMemoryFile.new, InMemoryFile.clone,
      InMemoryFile.drop, InMemoryFile.backend, InMemoryFile.write,
      WrappedWriter.str_write, WrappedWriter.write_str, Heap.upd]
  · intro j hj
    simp [emitFile, FilesChannel.writer, halive, InMemoryFile.new, InMemoryFile.clone,
      InMemoryFile.drop, InMemoryFile.backend, InMemoryFile.write,
      WrappedWriter.str_write, WrappedWriter.write_str, Heap.upd, hj]

lemma emit_fold (files : List (Path × RStr)) :
    ∀ (w : TestWorld) (out : List OutputFile),
      w.chan.receiverAlive = true →
      (∀ q ∈ w.chan.queue, q.2.bufId < w.heap.next) →
      (FilesChannel.recv_utf8_files w.heap w.chan.queue).1 = .ok out →
      (∀ pr ∈ files, validUtf8 pr.2 = true) →
      (files.foldl emitFile w).chan.receiverAlive = true ∧
      (∀ q ∈ (files.foldl emitFile w).chan.queue,
        q.2.bufId < (files.foldl emitFile w).heap.next) ∧
      (FilesChannel.recv_utf8_files (files.foldl emitFile w).heap
          (files.foldl emitFile w).chan.queue).1
        = .ok (out ++ files.map fun pr => ⟨pr.2, pr.1⟩) := by
  induction files with
  | nil =>
    intro w out h1 h2 h3 _
    exact ⟨h1, h2, by rw [List.map_nil, List.append_nil]; exact h3⟩
  | cons pr rest ih =>
    intro w out h1 h2 h3 hval
    obtain ⟨p, t⟩ := pr
    obtain ⟨e1, e2, e3, e4, e5⟩ := emitFile_spec w p t h1
    have hfresh1 : ∀ q ∈ (emitFile w (p, t)).chan.queue,
        q.2.bufId < (emitFile w (p, t)).heap.next := by
      intro q hq
      rw [e2] at hq
      rw [e3]
      rcases List.mem_append.mp hq with hq | hq
      · exact Nat.lt_succ_of_lt (h2 q hq)
      · have : q = (p, (⟨w.heap.next⟩ : InMemoryFile)) := by simpa using hq
        rw [this]
        exact Nat.lt_succ_self _
    have hdrain1 : (FilesChannel.recv_utf8_files (emitFile w (p, t)).heap
        (emitFile w (p, t)).chan.queue).1 = .ok (out ++ [⟨t, p⟩]) := by
      rw [e2]
      have hagre : ∀ q ∈ w.chan.queue,
          (emitFile w (p, t)).heap.data q.2.bufId = w.heap.data q.2.bufId :=
        fun q hq => e5 _ (Nat.ne_of_lt (h2 q hq))
      rcases hrecw1 : FilesChannel.recv_utf8_files (emitFile w (p, t)).heap
          w.chan.queue with ⟨r1, hh1⟩
      have hr1 : r1 = .ok out := by
        have hc := recv_congr w.chan.queue (emitFile w (p, t)).heap w.heap hagre
        rw [hrecw1, h3] at hc
        exact hc
      subst hr1
      have hcell : hh1.data w.heap.next = ⟨t, 1⟩ := by
        have hfr := recv_frame w.chan.queue (emitFile w (p, t)).heap w.heap.next
          (fun q hq => Nat.ne_of_lt (h2 q hq))
        rw [hrecw1] at hfr
        simp only at hfr
        rw [hfr, e4]
      have := recv_snoc_ok w.chan.queue p ⟨w.heap.next⟩ (emitFile w (p, t)).heap
        out hh1 hrecw1 (by rw [hcell]) (by rw [hcell]; exact hval (p, t) (by simp))
      rw [hcell] at this
      exact this
    have hvrest : ∀ pr ∈ rest, validUtf8 pr.2 = true :=
      fun pr hpr => hval pr (by simp [hpr])
    have hrec := ih (emitFile w (p, t)) (out ++ [⟨t, p⟩]) e1 hfresh1 hdrain1 hvrest
    simpa [List.append_assoc] using hrec

/-- C1 (counterexample): the claim as stated fails on `WrappedWriter`. Rust's
`io::Write::write` contract lets the inner writer accept only a prefix of the
buffer; `WrappedWriter::write` discards the returned count (`wrap_result` maps
it to `()`), so over `shortBackend` (which accepts one byte per call, a legal
inner writer) a single `write_bytes [1, 2]` call reports success while the
underlying resource ends with `[1]`, not the concatenation `[1, 2]`. -/
theorem c1_counterexample_partial_write :
    runWrapped ⟨"/out", shortBackend⟩ [] [WCall.bytes [1, 2] true] = some [1] ∧
    ([] : Bytes) ++ ([WCall.bytes [1, 2] true].map WCall.submitted).flatten = [1, 2] ∧
    ([1] : Bytes) ≠ [1, 2] :=
  ⟨rfl, rfl, by decide⟩

/-- C1 (amended): (i) every facet of `WrappedWriter` (converted-error byte
writer `write`, raw byte writer `io::Write::write`, converted-error text
writer `str_write`, raw text writer `fmt::Write::write_str`) submits exactly
the submitted bytes (for text, the string's UTF-8 bytes) to the inner writer
in one inner call, leaving the inner resource in the same state regardless of
facet; and (ii) when the inner resource appends each submitted buffer in full
— as `InMemoryFile` (the repository's in-memory resource) does — every finite
sequence of `write_bytes`/`write_text` calls through any mix of facets, on a
`WrappedWriter` over the file or on the `InMemoryFile` handle directly, all
succeed and leave the buffer equal to the exact concatenation, in call order,
of the submitted byte sequences: no reordering, no loss. -/
theorem c1_append_only :
    (∀ (σ : Type) (B : WriteBackend σ) (p : Path) (st : σ) (b : Bytes) (s : RStr),
      (WrappedWriter.write ⟨p, B⟩ st b).2 = (B.write st b).2 ∧
      (WrappedWriter.io_write ⟨p, B⟩ st b).2 = (B.write st b).2 ∧
      (WrappedWriter.str_write ⟨p, B⟩ st s).2 = (B.write st s).2 ∧
      (WrappedWriter.write_str ⟨p, B⟩ st s).2 = (B.write st s).2) ∧
    (∀ (calls : List WCall) (h : Heap) (f : InMemoryFile) (p : Path),
      ∃ hw hm, runWrapped ⟨p, f.backend⟩ h calls = some hw ∧ runMem f h calls = some hm ∧
        (hw.data f.bufId).contents
          = (h.data f.bufId).contents ++ (calls.map WCall.submitted).flatten ∧
        (hm.data f.bufId).contents
          = (h.data f.bufId).contents ++ (calls.map WCall.submitted).flatten) := by
  constructor
  · intro σ B p st b s
    refine ⟨?_, rfl, ?_, ?_⟩
    · rcases hB : B.write st b with ⟨r, st'⟩
      cases r <;> simp [WrappedWriter.write, hB]
    · rcases hB : B.write st s with ⟨r, st'⟩
      cases r <;> simp [WrappedWriter.str_write, WrappedWriter.write_str, hB]
    · rcases hB : B.write st s with ⟨r, st'⟩
      cases r <;> simp [WrappedWriter.write_str, hB]
  · intro calls h f p
    obtain ⟨hw, hrunw, hcw⟩ := runWrapped_backend_concat f p calls h
    obtain ⟨hm, hrunm, hcm⟩ := runMem_concat f calls h
    exact ⟨hw, hm, hrunw, hrunm, hcw, hcm⟩

/-- C2: every error produced by a `WrappedWriter`'s converted-error
operations (`write` of bytes, `str_write` of text) is a WriteTo/File error
whose path field equals that handle's own path. Since the error is built from
`w.path` alone, the attribution holds for each handle independently: two
simultaneous writers over different paths each stamp their own path (the
statement quantifies over every handle, hence over any collection of them). -/
theorem c2_error_path_attribution :
    ∀ (σ : Type) (w : WrappedWriter σ) (st : σ),
      (∀ (b : Bytes) (e : Error) (st' : σ), w.write st b = (.error e, st') →
        ∃ d, e = Error.FileIo .WriteTo .File w.path (some d)) ∧
      (∀ (s : RStr) (e : Error) (st' : σ), w.str_write st s = (.error e, st') →
        e = Error.FileIo .WriteTo .File w.path (some fmtErrorDescription)) := by
  intro σ w st
  constructor
  · intro b e st' hw
    rcases hB : w.inner.write st b with ⟨r, st2⟩
    cases r with
    | error ioe =>
      simp only [WrappedWriter.write, hB, Prod.mk.injEq, Except.error.injEq] at hw
      exact ⟨ioe.description, hw.1.symm⟩
    | ok n =>
      simp only [WrappedWriter.write, hB, Prod.mk.injEq] at hw
      exact absurd hw.1 (by simp)
  · intro s e st' hw
    rcases hB : w.inner.write st s with ⟨r, st2⟩
    cases r with
    | error ioe =>
      simp only [WrappedWriter.str_write, WrappedWriter.write_str, hB, Prod.mk.injEq,
        Except.error.injEq] at hw
      exact hw.1.symm
    | ok n =>
      simp only [WrappedWriter.str_write, WrappedWriter.write_str, hB, Prod.mk.injEq] at hw
      exact absurd hw.1 (by simp)

/-- C2 (witness): over the always-failing inner writer, a byte write on the
handle with path `/a` yields an error stamped with that handle's path. -/
theorem c2_witness :
    ∃ d, Error.FileIo .WriteTo .File "/a" (some "boom")
      = Error.FileIo .WriteTo .File (WrappedWriter.mk "/a" failBackend).path (some d) :=
  (c2_error_path_attribution Unit ⟨"/a", failBackend⟩ ()).1 [1]
    (Error.FileIo .WriteTo .File "/a" (some "boom")) () rfl

/-- C3: `into_contents` returns the buffer exactly when this handle is the
sole owner of the shared cell, and otherwise fails with the test-utility
failure `()` (type `Except Unit`, not an Error Model value). The concrete
scenario mirrors the spec: after one `open_for_write` on a fresh session the
channel message still holds a clone (two owners), so reclaiming the writer's
buffer fails; after the drain consumes and discards that message, exactly one
owner remains and reclaiming succeeds with the buffer's bytes. -/
theorem c3_into_contents_unique_owner :
    (∀ (h : Heap) (f : InMemoryFile),
      (f.into_contents h).1
        = if (h.data f.bufId).strong = 1 then .ok (h.data f.bufId).contents
          else .error ()) ∧
    (InMemoryFile.into_contents ⟨0⟩ (FilesChannel.writer "/a" initWorld).2.heap).1
      = .error () ∧
    (InMemoryFile.into_contents ⟨0⟩
        (FilesChannel.recv_utf8_files (FilesChannel.writer "/a" initWorld).2.heap
          (FilesChannel.writer "/a" initWorld).2.chan.queue).2).1 = .ok [] := by
  refine ⟨?_, rfl, rfl⟩
  intro h f
  by_cases hs : (h.data f.bufId).strong = 1 <;> simp [InMemoryFile.into_contents, hs]

/-- C4: (i) for any sequence of test-double writer-opens on paths `p1..pn`
from a fresh session (receiver listening, nothing queued), each writing its
text and dropping its handle, the drain `recv_utf8_files` returns exactly the
`(text, path)` pairs in send order, each text being precisely the bytes
written to that path's buffer (the drain consumes only the messages queued
when it begins: it is a pure function of that queue, and `try_iter` never
blocks); (ii) the whole collection fails whenever any queued file's buffer —
at any position, e.g. with only that writer's handle still retained — is
still held by another owner when its turn comes (drain processing never
revives a shared buffer: it only ever lowers a reclaimed cell's count to 0
and preserves contents); (iii) likewise the whole collection fails whenever
any queued buffer's contents are not valid UTF-8; and (iv) whenever the drain
does succeed, the output paths are exactly the queued paths in order and
every returned text is valid UTF-8. -/
theorem c4_drain_send_order :
    (∀ (files : List (Path × RStr)) (w0 : TestWorld),
      w0.chan.receiverAlive = true →
      w0.chan.queue = [] →
      (∀ pr ∈ files, validUtf8 pr.2 = true) →
      (FilesChannel.recv_utf8_files (files.foldl emitFile w0).heap
          (files.foldl emitFile w0).chan.queue).1
        = .ok (files.map fun pr => ⟨pr.2, pr.1⟩)) ∧
    (∀ (msgs : List (Path × InMemoryFile)) (h : Heap) (p : Path) (f : InMemoryFile),
      (p, f) ∈ msgs →
      (h.data f.bufId).strong ≠ 1 →
      (FilesChannel.recv_utf8_files h msgs).1 = .error ()) ∧
    (∀ (msgs : List (Path × InMemoryFile)) (h : Heap) (p : Path) (f : InMemoryFile),
      (p, f) ∈ msgs →
      validUtf8 (h.data f.bufId).contents = false →
      (FilesChannel.recv_utf8_files h msgs).1 = .error ()) ∧
    (∀ (msgs : List (Path × InMemoryFile)) (h : Heap) (outs : List OutputFile),
      (FilesChannel.recv_utf8_files h msgs).1 = .ok outs →
      outs.map OutputFile.path = msgs.map Prod.fst ∧
      ∀ o ∈ outs, validUtf8 o.text = true) := by
  refine ⟨?_,
    fun msgs h p f hm hs => recv_err_of_bad msgs h ⟨(p, f), hm, Or.inl hs⟩,
    fun msgs h p f hm hv => recv_err_of_bad msgs h ⟨(p, f), hm, Or.inr hv⟩,
    recv_ok_shape⟩
  intro files w0 ha hq hval
  have h2 : ∀ q ∈ w0.chan.queue, q.2.bufId < w0.heap.next := by rw [hq]; simp
  have h3 : (FilesChannel.recv_utf8_files w0.heap w0.chan.queue).1 = .ok [] := by
    rw [hq]; rfl
  obtain ⟨_, _, hd⟩ := emit_fold files w0 [] ha h2 h3 hval
  simpa using hd

/-- C4 (witness): writing `hi` to `/a` then `!` to `/b` and draining yields
exactly those two files in send order; a drain whose second queued buffer is
still held by another owner (the first is fine) fails wholesale; a drain
whose second queued buffer holds the invalid byte `0xFF` fails wholesale; and
a successful concrete drain lists the queued paths in order with valid
texts. -/
theorem c4_witness :
    (∀ pr ∈ [(("/a" : Path), ([104, 105] : RStr)), ("/b", [33])],
      validUtf8 pr.2 = true) ∧
    (FilesChannel.recv_utf8_files
        ([(("/a" : Path), ([104, 105] : RStr)), ("/b", [33])].foldl
          emitFile initWorld).heap
        ([(("/a" : Path), ([104, 105] : RStr)), ("/b", [33])].foldl
          emitFile initWorld).chan.queue).1
      = .ok [⟨[104, 105], "/a"⟩, ⟨[33], "/b"⟩] ∧
    (FilesChannel.recv_utf8_files ((emptyHeap.upd 0 ⟨[104], 1⟩).upd 1 ⟨[104], 2⟩)
        [("/a", ⟨0⟩), ("/b", ⟨1⟩)]).1 = .error () ∧
    (FilesChannel.recv_utf8_files ((emptyHeap.upd 0 ⟨[104], 1⟩).upd 1 ⟨[0xFF], 1⟩)
        [("/a", ⟨0⟩), ("/b", ⟨1⟩)]).1 = .error () ∧
    ([(⟨[104], "/z"⟩ : OutputFile)].map OutputFile.path
        = [(("/z" : Path), InMemoryFile.mk 0)].map Prod.fst ∧
      ∀ o ∈ [(⟨[104], "/z"⟩ : OutputFile)], validUtf8 o.text = true) :=
  ⟨by decide,
   c4_drain_send_order.1 [("/a", [104, 105]), ("/b", [33])] initWorld rfl rfl (by decide),
   c4_drain_send_order.2.1 [("/a", ⟨0⟩), ("/b", ⟨1⟩)]
     ((emptyHeap.upd 0 ⟨[104], 1⟩).upd 1 ⟨[104], 2⟩) "/b" ⟨1⟩ (by simp) (by decide),
   c4_drain_send_order.2.2.1 [("/a", ⟨0⟩), ("/b", ⟨1⟩)]
     ((emptyHeap.upd 0 ⟨[104], 1⟩).upd 1 ⟨[0xFF], 1⟩) "/b" ⟨1⟩ (by simp) (by decide),
   c4_drain_send_order.2.2.2 [("/z", ⟨0⟩)] (emptyHeap.upd 0 ⟨[104], 1⟩)
     [⟨[104], "/z"⟩] (by rfl)⟩

/-- C5: the default `unpack` succeeds exactly when the implementor-supplied
primitive `io_result_unpack` succeeds, and on primitive failure it returns a
WriteTo/Directory error at the target path whose cause is the native error's
description. -/
theorem c5_unpack_error_conversion :
    ∀ (α : Type) (t : TarUnpacker α) (p : Path) (a : α),
      (t.unpack p a = .ok () ↔ t.io_result_unpack p a = .ok ()) ∧
      (∀ e, t.io_result_unpack p a = .error e →
        t.unpack p a = .error (.FileIo .WriteTo .Directory p (some e.description))) := by
  intro α t p a
  have hmain : ∀ e, t.io_result_unpack p a = .error e →
      t.unpack p a = .error (.FileIo .WriteTo .Directory p (some e.description)) := by
    intro e he
    simp [TarUnpacker.unpack, he]
  refine ⟨?_, hmain⟩
  rcases ht : t.io_result_unpack p a with e | u
  · simp [TarUnpacker.unpack, ht]
  · cases u
    simp [TarUnpacker.unpack, ht]

/-- C5 (witness): the always-succeeding primitive yields `Ok`, and the
always-failing one (description `corrupt`) yields the converted
WriteTo/Directory error at the target path with that cause. -/
theorem c5_witness :
    okUnpacker.unpack "/t" () = .ok () ∧
    failUnpacker.unpack "/t" ()
      = .error (.FileIo .WriteTo .Directory "/t" (some "corrupt")) :=
  ⟨(c5_unpack_error_conversion Unit okUnpacker "/t" ()).1.mpr rfl,
   (c5_unpack_error_conversion Unit failUnpacker "/t" ()).2 ⟨"corrupt"⟩ rfl⟩

/-- C6: opening a path for writing on the test double always returns `Ok` of
a `WrappedWriter` with that path wrapping a fresh `InMemoryFile` (id
`w.heap.next`, empty buffer — so the message is observable before any writing
happens); the pair `(path, clone)` sharing that very buffer is queued exactly
when the receiver is listening (two owners then: writer plus message), and
when no receiver listens the send is silently dropped (queue unchanged, the
clone's ownership released back to one, still no error). -/
theorem c6_writer_sends_immediately :
    ∀ (p : Path) (w : TestWorld),
      (FilesChannel.writer p w).1
        = .ok (⟨p, InMemoryFile.backend ⟨w.heap.next⟩⟩, ⟨w.heap.next⟩) ∧
      ((FilesChannel.writer p w).2.heap.data w.heap.next).contents = [] ∧
      (FilesChannel.writer p w).2.chan.queue
        = (if w.chan.receiverAlive then w.chan.queue ++ [(p, ⟨w.heap.next⟩)]
           else w.chan.queue) ∧
      ((FilesChannel.writer p w).2.heap.data w.heap.next).strong
        = (if w.chan.receiverAlive then 2 else 1) ∧
      (FilesChannel.writer p w).2.heap.next = w.heap.next + 1 := by
  intro p w
  cases hA : w.chan.receiverAlive <;>
    simp [FilesChannel.writer, hA, InMemoryFile.new, InMemoryFile.clone,
      InMemoryFile.drop, Heap.upd]

/-- C7: `WrappedReader::read` (and the `io::Read` impl built on it) returns
exactly the inner abstract stream's result: the raw chunk on success (empty
signalling end of stream) and the raw `IoError` on failure, with no
translation into the Error Model at this layer — in contrast to the write
side, whose converted facets map failures into `Error` eagerly. -/
theorem c7_reader_delegates_raw :
    ∀ (σ : Type) (r : WrappedReader σ) (st : σ) (cap : Nat),
      r.read st cap = r.inner.read st cap ∧
      WrappedReader.io_read r st cap = r.inner.read st cap :=
  fun _ _ _ _ => ⟨rfl, rfl⟩

/-- C8: failed writes carry the resource's identity and the converted
failure's description: a failing byte write on a `WrappedWriter` yields
exactly WriteTo/File at the handle's real path with the inner `io::Error`'s
description as cause; a failing text write yields that path with the
description of the `fmt::Error` that `write_str` returned (the fixed
`fmtErrorDescription` — `write_str` maps the inner error to `fmt::Error`
first); the plain `String` buffer's conversion stamps the sentinel
`<in memory>` (its `write_str` appends and cannot fail), and `InMemoryFile`'s
conversion stamps the sentinel `<in memory test file>` (its converted byte
facet in fact never fails). -/
theorem c8_failure_identity_and_cause :
    (∀ (σ : Type) (w : WrappedWriter σ) (st st' : σ) (b : Bytes) (e : IoError),
      w.inner.write st b = (.error e, st') →
      w.write st b
        = (.error (Error.FileIo .WriteTo .File w.path (some e.description)), st')) ∧
    (∀ (σ : Type) (w : WrappedWriter σ) (st st' : σ) (s : RStr) (e : Error),
      w.str_write st s = (.error e, st') →
      e = Error.FileIo .WriteTo .File w.path (some fmtErrorDescription)) ∧
    (∀ (buf : Bytes) (s : RStr), rstring_str_write buf s = (.ok (), buf ++ s)) ∧
    (∀ d, rstring_convert_err d
      = Error.FileIo .WriteTo .File "<in memory>" (some d)) ∧
    (∀ d, InMemoryFile.convert_err d
      = Error.FileIo .WriteTo .File "<in memory test file>" (some d)) ∧
    (∀ (f : InMemoryFile) (h : Heap) (b : Bytes),
      (f.writer_write h b).1 = .ok ()) := by
  refine ⟨?_, ?_, fun _ _ => rfl, fun _ => rfl, fun _ => rfl, fun _ _ _ => rfl⟩
  · intro σ w st st' b e hB
    simp [WrappedWriter.write, hB, WrappedWriter.convert_err]
  · intro σ w st st' s e hw
    rcases hB : w.inner.write st s with ⟨r, st2⟩
    cases r with
    | error ioe =>
      simp only [WrappedWriter.str_write, WrappedWriter.write_str, hB, Prod.mk.injEq,
        Except.error.injEq] at hw
      exact hw.1.symm
    | ok n =>
      simp only [WrappedWriter.str_write, WrappedWriter.write_str, hB, Prod.mk.injEq] at hw
      exact absurd hw.1 (by simp)

/-- C8 (witness): over the always-failing inner writer at path `/w`, a byte
write fails with the io description `boom` as cause, and a text write's error
carries the fixed `fmt::Error` description. -/
theorem c8_witness :
    (WrappedWriter.mk "/w" failBackend).write () [7]
      = (.error (Error.FileIo .WriteTo .File "/w" (some "boom")), ()) ∧
    Error.FileIo .WriteTo .File "/w" (some fmtErrorDescription)
      = Error.FileIo .WriteTo .File (WrappedWriter.mk "/w" failBackend).path
          (some fmtErrorDescription) :=
  ⟨c8_failure_identity_and_cause.1 Unit ⟨"/w", failBackend⟩ () () [7] ⟨"boom"⟩ rfl,
   c8_failure_identity_and_cause.2.1 Unit ⟨"/w", failBackend⟩ () () [7]
     (Error.FileIo .WriteTo .File "/w" (some fmtErrorDescription)) rfl⟩

/-- C9: every reading capability of the `FilesChannel` test double
(`gleam_files`, `read`, `reader`, `is_file`, `is_directory`) aborts with a
panic (`unimplemented!()`) on every input — never a recoverable Error Model
value, never a normal return: the double is write-only by design. -/
theorem c9_reader_capabilities_panic :
    ∀ (c : Channel) (dir p1 p2 p3 p4 : Path),
      FilesChannel.gleam_files c dir = .panics ∧
      FilesChannel.read c p1 = .panics ∧
      (FilesChannel.reader c p2 : RustOutcome (WrappedReader Unit)) = .panics ∧
      FilesChannel.is_file c p3 = .panics ∧
      FilesChannel.is_directory c p4 = .panics :=
  fun _ _ _ _ _ _ => ⟨rfl, rfl, rfl, rfl, rfl⟩

/-- C10: opening the test double for writing never fails (the `Ok` branch is
the only one), `InMemoryFile`'s raw write always succeeds accepting the whole
buffer (`Vec<u8>` append), and therefore the converted-error branches of both
the wrapped and the direct write contract over the test double are
unreachable: every converted byte or text write returns `Ok`. -/
theorem c10_test_writes_infallible :
    (∀ (p : Path) (w : TestWorld),
      ∃ ww f w', FilesChannel.writer p w = (.ok (ww, f), w')) ∧
    (∀ (f : InMemoryFile) (h : Heap) (b : Bytes), (f.write h b).1 = .ok b.length) ∧
    (∀ (f : InMemoryFile) (h : Heap) (b : Bytes) (p : Path),
      (WrappedWriter.write ⟨p, f.backend⟩ h b).1 = .ok ()) ∧
    (∀ (f : InMemoryFile) (h : Heap) (s : RStr) (p : Path),
      (WrappedWriter.str_write ⟨p, f.backend⟩ h s).1 = .ok ()) ∧
    (∀ (f : InMemoryFile) (h : Heap) (b : Bytes), (f.writer_write h b).1 = .ok ()) ∧
    (∀ (f : InMemoryFile) (h : Heap) (s : RStr), (f.str_write h s).1 = .ok ()) := by
  refine ⟨?_, fun _ _ _ => rfl, fun _ _ _ _ => rfl, fun _ _ _ _ => rfl,
    fun _ _ _ => rfl, fun _ _ _ => rfl⟩
  intro p w
  cases hA : w.chan.receiverAlive <;>
    simp [FilesChannel.writer, hA, InMemoryFile.new]

end GleamCore
